import Mathlib

/-!
Verification of the queue / retry / worker-pool core of the trading bot

Shallow embedding of:
* `PersistentMessageQueue` (durable named-channel FIFO store),
* `RetryManager.withRetry` and its backoff/jitter/error-classification logic,
* `ProcessManager` (worker supervisor: task queue, busy flags, pending tasks),
* `processSlotInChild` (per-task worker logic).

Definitions are translated from the TypeScript sources; theorems settle the
stated properties of the specification.
-/

namespace SolanaBot

/-! ## Association-list maps (modelling JS `Map` insertion-ordered semantics) -/

variable {α : Type*} {M : Type*}

/-- Model of `Map.get`: first (unique) entry for a key. -/
def lookupEntry (k : String) : List (String × α) → Option α
  | [] => none
  | (k', v) :: rest => if k' = k then some v else lookupEntry k rest

/-- Model of `Map.set`: replace in place when the key exists, append otherwise. -/
def setEntry (k : String) (v : α) : List (String × α) → List (String × α)
  | [] => [(k, v)]
  | (k', v') :: rest => if k' = k then (k, v) :: rest else (k', v') :: setEntry k v rest

/-! ## PersistentMessageQueue

State of the durable queue: the in-memory `queues` map, the on-disk `store`
snapshot, the dirty flag, the pending-operation counter and whether a
debounced persist timer is currently scheduled. -/

/-- Constant `PERSIST_DELAY` (milliseconds) of `PersistentMessageQueue`. -/
def PERSIST_DELAY : Nat := 1000

/-- Constant `MAX_BATCH_SIZE` of `PersistentMessageQueue`. -/
def MAX_BATCH_SIZE : Nat := 100

structure QueueState (M : Type*) where
  queues : List (String × List M)
  store : List (String × List M)
  isDirty : Bool
  operationCount : Nat
  timerSet : Bool
  deriving Repr, DecidableEq

/-- Model of `forcePersist`: when dirty, snapshot `queues` into the store and reset the
dirty flag, the operation counter and the timer; otherwise do nothing. -/
def forcePersist (s : QueueState M) : QueueState M :=
  if s.isDirty = false then s
  else { s with store := s.queues, isDirty := false, operationCount := 0, timerSet := false }

/-- Model of `markDirtyAndSchedulePersist`: set dirty, bump the operation counter;
persist immediately once `MAX_BATCH_SIZE` operations accumulated, otherwise
(re)schedule the debounce timer. -/
def markDirtyAndSchedulePersist (s : QueueState M) : QueueState M :=
  if MAX_BATCH_SIZE ≤ s.operationCount + 1 then
    forcePersist { s with isDirty := true, operationCount := s.operationCount + 1 }
  else { s with isDirty := true, operationCount := s.operationCount + 1, timerSet := true }

/-- Constructor: seed the in-memory map from the saved on-disk snapshot. -/
def initialQueueState (saved : List (String × List M)) : QueueState M :=
  { queues := saved, store := saved, isDirty := false, operationCount := 0, timerSet := false }

/-- Model of `enqueue(channel, message)`: create the channel on first use, push the
message at the back, mark dirty and schedule persistence. -/
def enqueue (ch : String) (m : M) (s : QueueState M) : QueueState M :=
  let q := (lookupEntry ch s.queues).getD []
  markDirtyAndSchedulePersist { s with queues := setEntry ch (q ++ [m]) s.queues }

/-- Model of `dequeue(channel)`: return `undefined` when the channel is absent or
empty (leaving the state untouched); otherwise shift the head off the
channel's array, mark dirty and schedule persistence. -/
def dequeue (ch : String) (s : QueueState M) : Option M × QueueState M :=
  match lookupEntry ch s.queues with
  | none => (none, s)
  | some [] => (none, s)
  | some (m :: rest) =>
      (some m, markDirtyAndSchedulePersist { s with queues := setEntry ch rest s.queues })

/-- Model of `size(channel)`. -/
def queueSize (ch : String) (s : QueueState M) : Nat :=
  ((lookupEntry ch s.queues).map List.length).getD 0

/-- The message sequence currently held for a channel (absent = empty). -/
def channelQueue (ch : String) (s : QueueState M) : List M :=
  (lookupEntry ch s.queues).getD []

/-! ### Operation traces over the queue -/

/-- A single queue operation (single consumer: operations are sequential). -/
inductive QOp (M : Type*) where
  | enq (ch : String) (m : M)
  | deq (ch : String)

/-- Run a sequence of operations, collecting each dequeue's channel and
result in order. -/
def runOps : QueueState M → List (QOp M) → QueueState M × List (String × Option M)
  | s, [] => (s, [])
  | s, QOp.enq ch m :: ops => runOps (enqueue ch m s) ops
  | s, QOp.deq ch :: ops =>
      let r := dequeue ch s
      let rest := runOps r.2 ops
      (rest.1, (ch, r.1) :: rest.2)

/-- Messages enqueued on a given channel by a trace, in order. -/
def enqueuedOn (ch : String) : List (QOp M) → List M
  | [] => []
  | QOp.enq c m :: ops => (if c = ch then [m] else []) ++ enqueuedOn ch ops
  | QOp.deq _ :: ops => enqueuedOn ch ops

/-- Messages successfully dequeued from a given channel, in dequeue order. -/
def dequeuedOn (ch : String) : List (String × Option M) → List M
  | [] => []
  | (c, r) :: log => (if c = ch then r.toList else []) ++ dequeuedOn ch log

/-! ## RetryManager

Delays are JS numbers; they are modelled as rationals (`ℚ`), with the final
`Math.floor` as `Int.floor`.  `Math.random()*2 - 1` is modelled by an
arbitrary per-attempt draw `jit : Nat → ℚ`. -/

/-- A JS error as inspected by `isRetryableError`: its message, optional
`code`, and optional `status` / `statusCode` fields. -/
structure JsError where
  message : String
  code : Option String
  status : Option Int
  statusCode : Option Int
  deriving Repr, DecidableEq

/-- Does `hay` start with `needle`? -/
def startsWithSeq : List Char → List Char → Bool
  | [], _ => true
  | _ :: _, [] => false
  | a :: as, b :: bs => a = b && startsWithSeq as bs

/-- Does `needle` occur contiguously in `hay`? -/
def containsSeq (needle : List Char) : List Char → Bool
  | [] => startsWithSeq needle []
  | b :: bs => startsWithSeq needle (b :: bs) || containsSeq needle bs

/-- JS `String.prototype.includes`. -/
def strIncludes (hay needle : String) : Bool :=
  containsSeq needle.toList hay.toList

/-- Model of `error.message?.toLowerCase() || ''`. -/
def lowerMessage (e : JsError) : String :=
  String.mk (e.message.toList.map Char.toLower)

/-- Model of `error.status || error.statusCode` (`0` is falsy in JS). -/
def errStatus (e : JsError) : Option Int :=
  match e.status with
  | some s => if s ≠ 0 then some s else e.statusCode
  | none => e.statusCode

/-- Comparison against a possibly-undefined status (undefined compares false). -/
def statusInRange (o : Option Int) (lo hi : Int) : Bool :=
  match o with
  | some s => decide (lo ≤ s) && decide (s < hi)
  | none => false

def statusIs (o : Option Int) (n : Int) : Bool :=
  match o with
  | some s => s = n
  | none => false

/-- Model of `RetryManager.isRetryableError`, clause by clause. -/
def isRetryableError : Option JsError → Bool
  | none => false
  | some e =>
    let msg := lowerMessage e
    if strIncludes msg "network" || strIncludes msg "timeout" ||
       strIncludes msg "connection" || strIncludes msg "fetch" ||
       strIncludes msg "econnreset" || strIncludes msg "enotfound" ||
       strIncludes msg "etimedout" || strIncludes msg "socket" ||
       strIncludes msg "dns" then true
    else if e.code = some "ECONNRESET" || e.code = some "ENOTFOUND" ||
       e.code = some "ETIMEDOUT" || e.code = some "ECONNREFUSED" ||
       e.code = some "ENETDOWN" || e.code = some "ENETUNREACH" ||
       e.code = some "EAI_AGAIN" then true
    else if strIncludes msg "too many requests" || strIncludes msg "rate limit" ||
       strIncludes msg "server error" || strIncludes msg "service unavailable" ||
       strIncludes msg "internal server error" || strIncludes msg "bad gateway" ||
       strIncludes msg "gateway timeout" || strIncludes msg "temporarily unavailable" then true
    else if statusInRange (errStatus e) 500 600 then true
    else if statusIs (errStatus e) 429 then true
    else if statusIs (errStatus e) 502 || statusIs (errStatus e) 503 ||
       statusIs (errStatus e) 504 then true
    else if strIncludes msg "slot" && strIncludes msg "not available" then true
    else if strIncludes msg "transaction was not confirmed" ||
       strIncludes msg "not confirmed in" || strIncludes msg "confirmation timeout" ||
       strIncludes msg "signature not found" then true
    else false

/-- Model of `RetryConfig`. -/
structure RetryConfig where
  maxRetries : Nat
  baseDelay : ℚ
  maxDelay : ℚ
  backoffFactor : ℚ
  enableJitter : Bool
  deriving Repr, DecidableEq

/-- The `DATABASE` preset of `RETRY_CONFIGS` (the one with jitter disabled). -/
def RETRY_CONFIG_DATABASE : RetryConfig :=
  { maxRetries := 3, baseDelay := 100, maxDelay := 2000, backoffFactor := 2,
    enableJitter := false }

/-- The `NETWORK` preset of `RETRY_CONFIGS`. -/
def RETRY_CONFIG_NETWORK : RetryConfig :=
  { maxRetries := 5, baseDelay := 500, maxDelay := 5000, backoffFactor := 3/2,
    enableJitter := true }

/-- Model of `min(baseDelay * backoffFactor^attempt, maxDelay)`. -/
def rawDelay (cfg : RetryConfig) (attempt : Nat) : ℚ :=
  min (cfg.baseDelay * cfg.backoffFactor ^ attempt) cfg.maxDelay

/-- The delay after optional ±25% jitter (`jit` is the draw `2*random - 1`). -/
def jitteredDelay (cfg : RetryConfig) (jit : ℚ) (attempt : Nat) : ℚ :=
  if cfg.enableJitter then
    max 0 (rawDelay cfg attempt + rawDelay cfg attempt * (1 / 4) * jit)
  else rawDelay cfg attempt

/-- The integral delay actually slept before retrying after `attempt`. -/
def attemptDelay (cfg : RetryConfig) (jit : Nat → ℚ) (attempt : Nat) : ℤ :=
  ⌊jitteredDelay cfg (jit attempt) attempt⌋

/-- Model of `RetryStats`. -/
structure RetryStats where
  totalAttempts : Nat
  successfulRetries : Nat
  failedRetries : Nat
  averageAttempts : ℚ
  totalDelay : ℤ
  deriving Repr, DecidableEq

/-- The all-zero stats record used both to initialise a context and as the
fallback of `getStats`. -/
def emptyRetryStats : RetryStats :=
  { totalAttempts := 0, successfulRetries := 0, failedRetries := 0,
    averageAttempts := 0, totalDelay := 0 }

/-- Observable trace of one `withRetry` call: its outcome, how many times the
wrapped operation was invoked, the backoff delays slept (in order), and the
final per-context stats record. -/
structure RetryTrace (T : Type*) where
  result : Except JsError T
  attempts : Nat
  sleeps : List ℤ
  stats : RetryStats
  deriving Repr

/-- Placeholder for the (unreachable) `throw lastError!` after the loop. -/
def defaultJsError : JsError := { message := "", code := none, status := none, statusCode := none }

/-- The `for (attempt = 0; attempt <= maxRetries; attempt++)` loop of
`withRetry`.  `beh n` is the outcome of the `n`-th invocation of `fn`;
`fuel` is the number of loop iterations still allowed
(`maxRetries + 1 - attempt` at every reachable call). -/
def withRetryGo {T : Type*} (cfg : RetryConfig) (beh : Nat → Except JsError T)
    (jit : Nat → ℚ) : Nat → Nat → ℤ → RetryStats → RetryTrace T
  | 0, _, _, stats =>
      { result := Except.error defaultJsError, attempts := 0, sleeps := [], stats := stats }
  | fuel + 1, attempt, totalDelay, stats =>
      let stats1 : RetryStats := { stats with totalAttempts := stats.totalAttempts + 1 }
      match beh attempt with
      | Except.ok v =>
          let stats2 : RetryStats :=
            if 0 < attempt then
              { stats1 with successfulRetries := stats1.successfulRetries + 1,
                            totalDelay := stats1.totalDelay + totalDelay }
            else stats1
          let stats3 : RetryStats :=
            { stats2 with averageAttempts :=
                (stats2.totalAttempts : ℚ) /
                  ((stats2.successfulRetries + stats2.failedRetries + 1 : Nat) : ℚ) }
          { result := Except.ok v, attempts := 1, sleeps := [], stats := stats3 }
      | Except.error e =>
          if attempt = cfg.maxRetries then
            let stFail : RetryStats :=
              { stats1 with failedRetries := stats1.failedRetries + 1,
                            totalDelay := stats1.totalDelay + totalDelay }
            { result := Except.error e, attempts := 1, sleeps := [], stats := stFail }
          else if isRetryableError (some e) = false then
            let stFail : RetryStats :=
              { stats1 with failedRetries := stats1.failedRetries + 1 }
            { result := Except.error e, attempts := 1, sleeps := [], stats := stFail }
          else
            let d := attemptDelay cfg jit attempt
            let r := withRetryGo cfg beh jit fuel (attempt + 1) (totalDelay + d) stats1
            { result := r.result, attempts := r.attempts + 1, sleeps := d :: r.sleeps,
              stats := r.stats }

/-- Model of `withRetry(fn, config, context)`, given the stats record already
installed for the context. -/
def withRetry {T : Type*} (cfg : RetryConfig) (beh : Nat → Except JsError T)
    (jit : Nat → ℚ) (stats : RetryStats) : RetryTrace T :=
  withRetryGo cfg beh jit (cfg.maxRetries + 1) 0 0 stats

/-- Model of `RetryManager.getStats(context)` for a given stats table. -/
def getRetryStats (tbl : String → Option RetryStats) (context : String) : RetryStats :=
  (tbl context).getD emptyRetryStats

/-- Model of `RetryManager.clearStats(context)`. -/
def clearRetryStats (tbl : String → Option RetryStats) (context : String) :
    String → Option RetryStats :=
  fun c => if c = context then none else tbl c

/-- A permanently rejected operation: every attempt fails with
"insufficient funds" (classified non-retryable). -/
def insufficientFundsError : JsError :=
  { message := "insufficient funds", code := none, status := none, statusCode := none }

def insufficientFundsBeh : Nat → Except JsError Unit :=
  fun _ => Except.error insufficientFundsError

/-! ## BlockAnalysisWorker: `processSlotInChild` (transactionProcess.ts)

The RPC outcomes (connection probe, `getBlock`) are inputs to the embedding:
each is the final `Except` outcome of its `withRetry` wrapper.  Measured
durations (`Date.now()` differences) are abstract integer parameters; the
per-transaction analyzer is a parameter (its internals are outside the
claims, which concern the surrounding control flow). -/

structure TaskData where
  slot : Nat
  rpcUrl : String
  monitoredWallets : List String
  followAmount : Option ℚ
  retryAttempts : Option Nat
  deriving Repr

/-- Model of `ProcessTask` of the supervisor↔worker IPC contract. -/
structure ProcessTask where
  id : String
  type : String
  data : TaskData
  deriving Repr

structure Perf where
  networkTime : ℤ
  processTime : ℤ
  totalTime : ℤ
  transactionCount : Nat
  deriving Repr, DecidableEq

/-- The `data` payload of a `ProcessResult`: either an informational message
or the analysis outcome for a fetched block. -/
inductive ResultData (Opp : Type*) where
  | info (message : String)
  | analysis (slot : Nat) (tradingOpportunities : List Opp)
      (blockTransactionCount : Nat) (timestamp : Option ℤ)
  deriving Repr

structure ProcessResult (Opp : Type*) where
  id : String
  success : Bool
  data : Option (ResultData Opp)
  error : Option String
  performance : Perf
  deriving Repr

/-- A fetched block: its transaction list and block time. -/
structure Block (Tx : Type*) where
  transactions : List Tx
  blockTime : Option ℤ
  deriving Repr

/-- The failed `ProcessResult` built in the top-level `catch`. -/
def caughtFailure (Opp : Type*) (taskId : String) (e : JsError) (totalTime : ℤ) :
    ProcessResult Opp :=
  { id := taskId, success := false, data := none, error := some e.message,
    performance :=
      { networkTime := 0, processTime := 0, totalTime := totalTime, transactionCount := 0 } }

/-- Model of `processSlotInChild(task)`.  `connInit` is the outcome of
`initializeConnection`, `fetched` the outcome of the retried `getBlock`,
`metaOk tx` the `tx && tx.meta && tx.meta.err === null` check, `analyze` the
per-transaction analyzer (`null` = no opportunity), and `networkTime`,
`processTime`, `totalTime` the measured durations. -/
def processSlotInChild {Tx Opp : Type*} (task : ProcessTask)
    (connInit : Except JsError Unit)
    (fetched : Except JsError (Option (Block Tx)))
    (metaOk : Tx → Bool) (analyze : Tx → Option Opp)
    (networkTime processTime totalTime : ℤ) : ProcessResult Opp :=
  match connInit with
  | Except.error e => caughtFailure Opp task.id e totalTime
  | Except.ok _ =>
    match fetched with
    | Except.error e => caughtFailure Opp task.id e totalTime
    | Except.ok none =>
        { id := task.id, success := true,
          data := some (ResultData.info ("区块 " ++ toString task.data.slot ++ " 未找到")),
          error := none,
          performance :=
            { networkTime := networkTime, processTime := 0, totalTime := totalTime,
              transactionCount := 0 } }
    | Except.ok (some block) =>
        if task.data.monitoredWallets.length = 0 then
          { id := task.id, success := true,
            data := some (ResultData.info "没有配置要监控的钱包地址"),
            error := none,
            performance :=
              { networkTime := networkTime, processTime := 0, totalTime := totalTime,
                transactionCount := block.transactions.length } }
        else
          let opportunities := block.transactions.filterMap
            (fun tx => if metaOk tx then analyze tx else none)
          { id := task.id, success := true,
            data := some (ResultData.analysis task.data.slot opportunities
              block.transactions.length block.blockTime),
            error := none,
            performance :=
              { networkTime := networkTime, processTime := processTime,
                totalTime := totalTime, transactionCount := block.transactions.length } }

/-! ## ProcessManager (worker supervisor)

State machine over the supervisor's mutable state: the worker pool
(`processes`: id → busy flag), the internal FIFO `taskQueue`, the
`pendingTasks` map (task id → optional `assignedProcessId`), and — as a
history variable for the dispatch discipline — the ordered log of IPC task
sends.  Asynchronous effects (child `ready`/`exit`/`error` messages, result
messages, per-task timers) are events interleaved by the event loop. -/

structure WorkerInfo where
  id : String
  busy : Bool
  deriving Repr, DecidableEq

/-- One entry of `pendingTasks`: the task id and `assignedProcessId`. -/
structure PendingEntry where
  taskId : String
  assigned : Option String
  deriving Repr, DecidableEq

structure PMState where
  maxProcesses : Nat
  workers : List WorkerInfo
  taskQueue : List String
  pending : List PendingEntry
  dispatchLog : List (String × String)
  deriving Repr, DecidableEq

/-- Model of `Array.from(this.processes.values()).find(p => !p.busy)`. -/
def findIdle : List WorkerInfo → Option WorkerInfo
  | [] => none
  | w :: ws => if w.busy = false then some w else findIdle ws

/-- Flip the busy flag of the worker with the given id. -/
def setBusy (wid : String) (b : Bool) (ws : List WorkerInfo) : List WorkerInfo :=
  ws.map (fun w => if w.id = wid then { w with busy := b } else w)

/-- Model of `pendingTask.assignedProcessId = wid` for the entry of task `tid`
(no-op when the entry was already deleted, as in the source). -/
def assignPending (tid wid : String) (ps : List PendingEntry) : List PendingEntry :=
  ps.map (fun p => if p.taskId = tid then { p with assigned := some wid } else p)

/-- Model of `pendingTasks.delete(tid)`. -/
def removePending (tid : String) (ps : List PendingEntry) : List PendingEntry :=
  ps.filter (fun p => ¬ p.taskId = tid)

/-- Delete the (unique) pending entry assigned to a worker — the entry keyed
by the `result.id` the worker just reported. -/
def removeFirstAssigned (wid : String) : List PendingEntry → List PendingEntry
  | [] => []
  | p :: ps => if p.assigned = some wid then ps else p :: removeFirstAssigned wid ps

/-- Model of `handleProcessError`'s sweep: reject every pending task assigned to the
failed worker. -/
def removeAllAssigned (wid : String) (ps : List PendingEntry) : List PendingEntry :=
  ps.filter (fun p => ¬ p.assigned = some wid)

def hasWorker (wid : String) (ws : List WorkerInfo) : Bool :=
  ws.any (fun w => w.id = wid)

def taskIds (log : List (String × String)) : List String :=
  log.map Prod.fst

/-- Model of `processNextTask`: if the queue is non-empty and an idle worker exists,
shift the head task, mark that worker busy, record the assignment on the
task's pending entry and send the task (logged).  With no idle worker the
spawn request (`createProcess().then(processNextTask)`) is asynchronous: its
completion is the later `ready` event, so the immediate state is unchanged. -/
def processNextTask (s : PMState) : PMState :=
  match s.taskQueue with
  | [] => s
  | t :: rest =>
    match findIdle s.workers with
    | some w =>
        { s with taskQueue := rest,
                 workers := setBusy w.id true s.workers,
                 pending := assignPending t w.id s.pending,
                 dispatchLog := s.dispatchLog ++ [(t, w.id)] }
    | none => s

/-- Whether a task id was ever seen (queue, pending map or dispatch log) —
fresh task ids are guaranteed by the `task_${++counter}_${Date.now()}`
scheme. -/
def knownTask (tid : String) (s : PMState) : Bool :=
  s.taskQueue.any (fun t => t = tid) || s.pending.any (fun p => p.taskId = tid) ||
    (taskIds s.dispatchLog).any (fun t => t = tid)

/-- Events interleaved by the supervisor's event loop. -/
inductive PMEvent where
  | ready (wid : String)
  | submit (tid : String)
  | result (wid : String)
  | procError (wid : String)
  | timeout (tid : String)
  | exit (wid : String)
  deriving Repr, DecidableEq

/-- One event-loop step.  `none` marks an event that cannot occur (duplicate
worker id on spawn, duplicate task id on submit, message from an unknown
process handle). -/
def step (s : PMState) : PMEvent → Option PMState
  | PMEvent.ready wid =>
      if hasWorker wid s.workers then none
      else if s.pending.any (fun p => p.assigned = some wid) then none
      else some (processNextTask { s with workers := s.workers ++ [{ id := wid, busy := false }] })
  | PMEvent.submit tid =>
      if knownTask tid s then none
      else some (processNextTask
        { s with pending := s.pending ++ [{ taskId := tid, assigned := none }],
                 taskQueue := s.taskQueue ++ [tid] })
  | PMEvent.result wid =>
      if hasWorker wid s.workers then
        some (processNextTask
          { s with workers := setBusy wid false s.workers,
                   pending := removeFirstAssigned wid s.pending })
      else none
  | PMEvent.procError wid =>
      if hasWorker wid s.workers then
        some { s with workers := setBusy wid false s.workers,
                      pending := removeAllAssigned wid s.pending }
      else none
  | PMEvent.timeout tid =>
      some { s with pending := removePending tid s.pending }
  | PMEvent.exit wid =>
      some { s with workers := s.workers.filter (fun w => ¬ w.id = wid) }

/-- The supervisor's state at construction. -/
def initPM (maxP : Nat) : PMState :=
  { maxProcesses := maxP, workers := [], taskQueue := [], pending := [], dispatchLog := [] }

/-- Run a sequence of events. -/
def runEvents (s : PMState) : List PMEvent → Option PMState
  | [] => some s
  | e :: es =>
    match step s e with
    | none => none
    | some s' => runEvents s' es

/-- Number of pending tasks currently marked against a worker. -/
def assignedCount (wid : String) (ps : List PendingEntry) : Nat :=
  ps.countP (fun p => p.assigned = some wid)

/-! ### Supervisor invariants -/

/-- Reachability invariant of the supervisor state. -/
structure PMInv (s : PMState) : Prop where
  idle_unassigned : ∀ w ∈ s.workers, w.busy = false → assignedCount w.id s.pending = 0
  at_most_one : ∀ w ∈ s.workers, assignedCount w.id s.pending ≤ 1
  log_nodup : (taskIds s.dispatchLog).Nodup
  queue_not_logged : ∀ t ∈ s.taskQueue, t ∉ taskIds s.dispatchLog
  queue_nodup : s.taskQueue.Nodup
  pending_nodup : (s.pending.map PendingEntry.taskId).Nodup
  queued_unassigned : ∀ p ∈ s.pending, p.taskId ∈ s.taskQueue → p.assigned = none

/-! ## Theorems -/

theorem lookupEntry_setEntry (k k' : String) (v : α) (l : List (String × α)) :
    lookupEntry k (setEntry k' v l) = if k' = k then some v else lookupEntry k l := by
  induction l with
  | nil => simp [setEntry, lookupEntry]
  | cons hd tl ih =>
    obtain ⟨k₀, v₀⟩ := hd
    by_cases h₀ : k₀ = k'
    · subst h₀
      by_cases h₁ : k₀ = k <;> simp [setEntry, lookupEntry, h₁]
    · by_cases h₁ : k₀ = k
      · subst h₁
        have : ¬ k' = k₀ := fun h => h₀ h.symm
        simp [setEntry, lookupEntry, h₀, this]
      · simp [setEntry, lookupEntry, h₀, h₁, ih]

theorem forcePersist_queues (s : QueueState M) : (forcePersist s).queues = s.queues := by
  unfold forcePersist; split <;> rfl

theorem markDirty_queues (s : QueueState M) :
    (markDirtyAndSchedulePersist s).queues = s.queues := by
  unfold markDirtyAndSchedulePersist
  split
  · rw [forcePersist_queues]
  · rfl

theorem dequeue_none_of_lookup_none (c : String) (s : QueueState M)
    (hl : lookupEntry c s.queues = none) : dequeue c s = (none, s) := by
  unfold dequeue; rw [hl]

theorem dequeue_none_of_lookup_nil (c : String) (s : QueueState M)
    (hl : lookupEntry c s.queues = some []) : dequeue c s = (none, s) := by
  unfold dequeue; rw [hl]

theorem dequeue_cons (c : String) (s : QueueState M) (m : M) (rest : List M)
    (hl : lookupEntry c s.queues = some (m :: rest)) :
    dequeue c s =
      (some m, markDirtyAndSchedulePersist { s with queues := setEntry c rest s.queues }) := by
  unfold dequeue; rw [hl]

theorem channelQueue_enqueue (ch c : String) (m : M) (s : QueueState M) :
    channelQueue ch (enqueue c m s) =
      channelQueue ch s ++ (if c = ch then [m] else []) := by
  unfold channelQueue enqueue
  rw [markDirty_queues]
  simp only [lookupEntry_setEntry]
  by_cases h : c = ch <;> simp [h]

/-- Invariant: along any trace, what came out of a channel followed by what
is still queued equals what was there initially followed by what went in. -/
theorem runOps_fifo_invariant (ops : List (QOp M)) (s : QueueState M) (ch : String) :
    dequeuedOn ch (runOps s ops).2 ++ channelQueue ch (runOps s ops).1
      = channelQueue ch s ++ enqueuedOn ch ops := by
  induction ops generalizing s with
  | nil => simp [runOps, dequeuedOn, enqueuedOn]
  | cons op ops ih =>
    cases op with
    | enq c m =>
      simp only [runOps, enqueuedOn]
      rw [ih (enqueue c m s), channelQueue_enqueue, List.append_assoc]
    | deq c =>
      simp only [runOps, enqueuedOn]
      rcases hl : lookupEntry c s.queues with _ | q
      · rw [dequeue_none_of_lookup_none c s hl]
        simp only [dequeuedOn]
        rw [List.append_assoc, ih s]
        by_cases h : c = ch <;> simp [h]
      · rcases q with _ | ⟨m, rest⟩
        · rw [dequeue_none_of_lookup_nil c s hl]
          simp only [dequeuedOn]
          rw [List.append_assoc, ih s]
          by_cases h : c = ch <;> simp [h]
        · rw [dequeue_cons c s m rest hl]
          simp only [dequeuedOn, Option.toList]
          rw [List.append_assoc, ih]
          have hcq : channelQueue ch
              (markDirtyAndSchedulePersist { s with queues := setEntry c rest s.queues })
              = if c = ch then rest else channelQueue ch s := by
            unfold channelQueue
            rw [markDirty_queues]
            simp only [lookupEntry_setEntry]
            split <;> rfl
          rw [hcq]
          by_cases h : c = ch
          · subst h
            rw [if_pos rfl]
            unfold channelQueue
            rw [hl]
            simp
          · rw [if_neg h]
            simp [h]

/-- C1: strict per-channel FIFO. Starting from a fresh (empty) queue, for any
sequence of enqueue/dequeue operations and any channel, the sequence of
messages dequeued from that channel is an initial segment of the sequence of
messages enqueued on it — so each dequeue returns the oldest not-yet-dequeued
message, and for positions `i < j` the message enqueued at `i` comes out
before the one enqueued at `j`: the `i`-th dequeued message is exactly the
`i`-th enqueued one. -/
theorem dequeue_order_is_enqueue_order (ops : List (QOp M)) (ch : String) :
    (∃ rest, dequeuedOn ch (runOps (initialQueueState []) ops).2 ++ rest
        = enqueuedOn ch ops) ∧
    (∀ i, i < (dequeuedOn ch (runOps (initialQueueState []) ops).2).length →
      (enqueuedOn ch ops)[i]?
        = (dequeuedOn ch (runOps (initialQueueState []) ops).2)[i]?) := by
  have h := runOps_fifo_invariant ops (initialQueueState ([] : List (String × List M))) ch
  have h0 : channelQueue ch (initialQueueState ([] : List (String × List M))) = [] := rfl
  rw [h0, List.nil_append] at h
  refine ⟨⟨channelQueue ch (runOps (initialQueueState []) ops).1, h⟩, ?_⟩
  intro i hi
  rw [← h, List.getElem?_append_left hi]

/-- C10: dequeuing an absent or empty channel returns `undefined` and is a
complete no-op: the result state is the input state, so no channel entry is
created, `isDirty`, `operationCount`, the timer flag and the persisted store
all keep their previous values. -/
theorem dequeue_empty_is_noop (s : QueueState M) (ch : String)
    (h : lookupEntry ch s.queues = none ∨ lookupEntry ch s.queues = some []) :
    dequeue ch s = (none, s) := by
  unfold dequeue
  rcases h with h | h <;> rw [h]

/-- Witness for `dequeue_empty_is_noop` at a concrete state. -/
theorem dequeue_empty_is_noop_witness :
    dequeue "price-updates" (initialQueueState ([] : List (String × List Nat)))
      = (none, initialQueueState []) :=
  dequeue_empty_is_noop _ _ (Or.inl rfl)

/-! ### Retry theorems -/

theorem withRetryGo_bounds {T : Type*} (cfg : RetryConfig) (beh : Nat → Except JsError T)
    (jit : Nat → ℚ) :
    ∀ fuel attempt td st, attempt + fuel = cfg.maxRetries + 1 → attempt ≤ cfg.maxRetries →
      (withRetryGo cfg beh jit fuel attempt td st).attempts ≤ fuel ∧
      (withRetryGo cfg beh jit fuel attempt td st).sleeps.length + 1 ≤
        (withRetryGo cfg beh jit fuel attempt td st).attempts := by
  intro fuel
  induction fuel with
  | zero => intro attempt td st h1 h2; omega
  | succ fuel ih =>
    intro attempt td st h1 h2
    unfold withRetryGo
    cases hbeh : beh attempt with
    | ok v => simp
    | error e =>
      by_cases hlast : attempt = cfg.maxRetries
      · simp [hlast]
      · by_cases hretr : isRetryableError (some e) = false
        · simp [hlast, hretr]
        · have h1' : (attempt + 1) + fuel = cfg.maxRetries + 1 := by omega
          have h2' : attempt + 1 ≤ cfg.maxRetries := by omega
          have hrec := ih (attempt + 1) (td + attemptDelay cfg jit attempt)
            { st with totalAttempts := st.totalAttempts + 1 } h1' h2'
          simp only [hlast, hretr, if_false, if_neg]
          constructor
          · simpa using Nat.succ_le_succ hrec.1
          · simpa using Nat.succ_le_succ hrec.2

/-- C2: `withRetry` with `maxRetries = R` invokes the wrapped operation at
most `R + 1` times, and the number of backoff sleeps is strictly below the
number of attempts — a delay is slept only when a further attempt follows, so
it never sleeps after the final attempt. -/
theorem withRetry_attempt_and_sleep_bound {T : Type*} (cfg : RetryConfig)
    (beh : Nat → Except JsError T) (jit : Nat → ℚ) (st : RetryStats) :
    (withRetry cfg beh jit st).attempts ≤ cfg.maxRetries + 1 ∧
    (withRetry cfg beh jit st).sleeps.length + 1 ≤ (withRetry cfg beh jit st).attempts := by
  have h := withRetryGo_bounds cfg beh jit (cfg.maxRetries + 1) 0 0 st (by omega) (by omega)
  exact ⟨h.1, h.2⟩

/-- C4: when an attempt fails and either it was the last allowed attempt
(`attempt = maxRetries`) or the error is classified non-retryable, the loop
re-throws exactly that error with no further invocation of the operation, no
backoff sleep, and the failure recorded in the context's stats. -/
theorem withRetry_fatal_rethrows_immediately {T : Type*} (cfg : RetryConfig)
    (beh : Nat → Except JsError T) (jit : Nat → ℚ) (fuel attempt : Nat) (td : ℤ)
    (st : RetryStats) (e : JsError)
    (hbeh : beh attempt = Except.error e)
    (hfatal : attempt = cfg.maxRetries ∨ isRetryableError (some e) = false) :
    (withRetryGo cfg beh jit (fuel + 1) attempt td st).result = Except.error e ∧
    (withRetryGo cfg beh jit (fuel + 1) attempt td st).attempts = 1 ∧
    (withRetryGo cfg beh jit (fuel + 1) attempt td st).sleeps = [] ∧
    (withRetryGo cfg beh jit (fuel + 1) attempt td st).stats.failedRetries
      = st.failedRetries + 1 := by
  unfold withRetryGo
  rw [hbeh]
  by_cases hlast : attempt = cfg.maxRetries
  · simp [hlast]
  · rcases hfatal with hfatal | hfatal
    · exact absurd hfatal hlast
    · simp [hlast, hfatal]

/-- Witness for `withRetry_fatal_rethrows_immediately`: a permanently
rejected operation on the `NETWORK` preset fails at attempt 0 with no retry. -/
theorem withRetry_fatal_rethrows_immediately_witness :
    (withRetryGo RETRY_CONFIG_NETWORK insufficientFundsBeh
        (fun _ => 0) 6 0 0 emptyRetryStats).result = Except.error insufficientFundsError ∧
    (withRetryGo RETRY_CONFIG_NETWORK insufficientFundsBeh
        (fun _ => 0) 6 0 0 emptyRetryStats).attempts = 1 ∧
    (withRetryGo RETRY_CONFIG_NETWORK insufficientFundsBeh
        (fun _ => 0) 6 0 0 emptyRetryStats).sleeps = [] ∧
    (withRetryGo RETRY_CONFIG_NETWORK insufficientFundsBeh
        (fun _ => 0) 6 0 0 emptyRetryStats).stats.failedRetries
      = emptyRetryStats.failedRetries + 1 :=
  withRetry_fatal_rethrows_immediately RETRY_CONFIG_NETWORK insufficientFundsBeh
    (fun _ => 0) 5 0 0 emptyRetryStats insufficientFundsError
    rfl (Or.inr (by decide))

/-- C6: with jitter disabled and `backoffFactor > 1` (delays nonnegative, as
all presets are), the computed backoff delay is non-decreasing in the attempt
index, and once `baseDelay * backoffFactor^attempt` reaches the `maxDelay`
cap the delay stays constant at `maxDelay`. -/
theorem backoff_monotone_without_jitter (cfg : RetryConfig) (jit : Nat → ℚ) (a : Nat)
    (hj : cfg.enableJitter = false) (hf : 1 < cfg.backoffFactor) (hb : 0 ≤ cfg.baseDelay) :
    attemptDelay cfg jit a ≤ attemptDelay cfg jit (a + 1) ∧
    (cfg.maxDelay ≤ cfg.baseDelay * cfg.backoffFactor ^ a →
      jitteredDelay cfg (jit a) a = cfg.maxDelay ∧
      jitteredDelay cfg (jit (a + 1)) (a + 1) = cfg.maxDelay) := by
  have hpow : cfg.backoffFactor ^ a ≤ cfg.backoffFactor ^ (a + 1) :=
    pow_le_pow_right₀ (le_of_lt hf) (Nat.le_succ a)
  have hmul : cfg.baseDelay * cfg.backoffFactor ^ a
      ≤ cfg.baseDelay * cfg.backoffFactor ^ (a + 1) :=
    mul_le_mul_of_nonneg_left hpow hb
  have hraw : rawDelay cfg a ≤ rawDelay cfg (a + 1) := min_le_min hmul le_rfl
  constructor
  · unfold attemptDelay
    simp only [jitteredDelay, hj, if_false]
    exact Int.floor_le_floor hraw
  · intro hcap
    have h1 : rawDelay cfg a = cfg.maxDelay := min_eq_right hcap
    have h2 : rawDelay cfg (a + 1) = cfg.maxDelay := min_eq_right (le_trans hcap hmul)
    simp only [jitteredDelay, hj, if_false]
    exact ⟨h1, h2⟩

/-- Witness for `backoff_monotone_without_jitter`: the `DATABASE` preset
(jitter off, factor 2) at attempt 5, where the cap is already reached. -/
theorem backoff_monotone_without_jitter_witness :
    attemptDelay RETRY_CONFIG_DATABASE (fun _ => 0) 5
        ≤ attemptDelay RETRY_CONFIG_DATABASE (fun _ => 0) (5 + 1) ∧
    (RETRY_CONFIG_DATABASE.maxDelay
        ≤ RETRY_CONFIG_DATABASE.baseDelay * RETRY_CONFIG_DATABASE.backoffFactor ^ 5 →
      jitteredDelay RETRY_CONFIG_DATABASE 0 5 = RETRY_CONFIG_DATABASE.maxDelay ∧
      jitteredDelay RETRY_CONFIG_DATABASE 0 (5 + 1) = RETRY_CONFIG_DATABASE.maxDelay) :=
  backoff_monotone_without_jitter RETRY_CONFIG_DATABASE (fun _ => 0) 5 rfl
    (by decide) (by decide)

/-- C9: querying retry stats for a context that was never used (or whose
entry was cleared) yields a record with all five fields equal to zero, not an
absent value or an error. -/
theorem getRetryStats_unknown_context (tbl : String → Option RetryStats) (ctx : String)
    (h : tbl ctx = none) :
    getRetryStats tbl ctx =
      { totalAttempts := 0, successfulRetries := 0, failedRetries := 0,
        averageAttempts := 0, totalDelay := 0 } ∧
    getRetryStats (clearRetryStats tbl ctx) ctx =
      { totalAttempts := 0, successfulRetries := 0, failedRetries := 0,
        averageAttempts := 0, totalDelay := 0 } := by
  constructor
  · unfold getRetryStats
    rw [h]
    rfl
  · unfold getRetryStats clearRetryStats
    simp [emptyRetryStats]

/-- Witness for `getRetryStats_unknown_context` on the empty stats table. -/
theorem getRetryStats_unknown_context_witness :
    getRetryStats (fun _ => none) "getBlock" =
      { totalAttempts := 0, successfulRetries := 0, failedRetries := 0,
        averageAttempts := 0, totalDelay := 0 } ∧
    getRetryStats (clearRetryStats (fun _ => none) "getBlock") "getBlock" =
      { totalAttempts := 0, successfulRetries := 0, failedRetries := 0,
        averageAttempts := 0, totalDelay := 0 } :=
  getRetryStats_unknown_context (fun _ => none) "getBlock" rfl

/-- C7: an absent (skipped) slot — `getBlock` succeeds with no block — is a
normal outcome: the worker returns `success = true`, an informational message
in `data`, no error, and `performance.transactionCount = 0`. -/
theorem skipped_slot_is_success {Tx Opp : Type*} (task : ProcessTask)
    (connInit : Except JsError Unit) (fetched : Except JsError (Option (Block Tx)))
    (metaOk : Tx → Bool) (analyze : Tx → Option Opp) (networkTime processTime totalTime : ℤ)
    (hc : connInit = Except.ok ()) (hf : fetched = Except.ok none) :
    processSlotInChild task connInit fetched metaOk analyze networkTime processTime totalTime
      = { id := task.id, success := true,
          data := some (ResultData.info ("区块 " ++ toString task.data.slot ++ " 未找到")),
          error := none,
          performance :=
            { networkTime := networkTime, processTime := 0, totalTime := totalTime,
              transactionCount := 0 } } := by
  subst hc hf
  rfl

/-- Witness for `skipped_slot_is_success` on a concrete task for slot 123. -/
theorem skipped_slot_is_success_witness :
    @processSlotInChild Unit Unit
        { id := "task_1_1700000000000", type := "processSlot",
          data := { slot := 123, rpcUrl := "https://rpc", monitoredWallets := ["w1"],
                    followAmount := none, retryAttempts := none } }
        (Except.ok ()) (Except.ok none) (fun _ => true) (fun _ => none) 5 0 7
      = { id := "task_1_1700000000000", success := true,
          data := some (ResultData.info "区块 123 未找到"),
          error := none,
          performance :=
            { networkTime := 5, processTime := 0, totalTime := 7, transactionCount := 0 } } :=
  skipped_slot_is_success _ _ _ _ _ _ _ _ rfl rfl

/-- C8: any top-level exception during the task (connection initialisation or
the block fetch failing for good) is caught and converted into a
`ProcessResult` with `success = false` and `error` set to the exception's
message — the handler returns this result (which is what gets sent over IPC)
instead of propagating the exception, so the worker does not die on a single
bad task. -/
theorem task_failure_is_caught {Tx Opp : Type*} (task : ProcessTask)
    (connInit : Except JsError Unit) (fetched : Except JsError (Option (Block Tx)))
    (metaOk : Tx → Bool) (analyze : Tx → Option Opp) (networkTime processTime totalTime : ℤ)
    (e : JsError)
    (h : connInit = Except.error e ∨ (connInit = Except.ok () ∧ fetched = Except.error e)) :
    processSlotInChild task connInit fetched metaOk analyze networkTime processTime totalTime
      = { id := task.id, success := false, data := none, error := some e.message,
          performance :=
            { networkTime := 0, processTime := 0, totalTime := totalTime,
              transactionCount := 0 } } := by
  rcases h with h | ⟨h1, h2⟩
  · subst h
    rfl
  · subst h1 h2
    rfl

/-- Witness for `task_failure_is_caught`: the block fetch exhausts retries
with a network error, and the worker reports a failed result for the task. -/
theorem task_failure_is_caught_witness :
    @processSlotInChild Unit Unit
        { id := "task_2_1700000000001", type := "processSlot",
          data := { slot := 124, rpcUrl := "https://rpc", monitoredWallets := ["w1"],
                    followAmount := none, retryAttempts := none } }
        (Except.ok ())
        (Except.error { message := "fetch failed", code := none, status := none,
                        statusCode := none })
        (fun _ => true) (fun _ => none) 5 0 7
      = { id := "task_2_1700000000001", success := false, data := none,
          error := some "fetch failed",
          performance :=
            { networkTime := 0, processTime := 0, totalTime := 7, transactionCount := 0 } } :=
  task_failure_is_caught _ _ _ _ _ _ _ _ _ (Or.inr ⟨rfl, rfl⟩)

theorem assignedCount_assign_other (tid wid wid' : String) (ps : List PendingEntry)
    (hne : wid' ≠ wid) (hnone : ∀ p ∈ ps, p.taskId = tid → p.assigned = none) :
    assignedCount wid' (assignPending tid wid ps) = assignedCount wid' ps := by
  induction ps with
  | nil => rfl
  | cons p ps ih =>
    have ih' := ih (fun q hq => hnone q (List.mem_cons_of_mem p hq))
    have hstep : assignPending tid wid (p :: ps)
        = (if p.taskId = tid then { p with assigned := some wid } else p)
            :: assignPending tid wid ps := rfl
    rw [hstep]
    unfold assignedCount at ih' ⊢
    rw [List.countP_cons, List.countP_cons, ih']
    congr 1
    by_cases h : p.taskId = tid
    · rw [if_pos h]
      have h1 : decide (({ p with assigned := some wid } : PendingEntry).assigned = some wid')
          = false := by
        simp only [decide_eq_false_iff_not]
        intro hc
        exact hne (Option.some.inj hc).symm
      have h2 : decide (p.assigned = some wid') = false := by
        rw [hnone p (List.mem_cons_self p ps) h]
        simp
      rw [h1, h2]
    · rw [if_neg h]

theorem assignedCount_assign_le (tid wid : String) (ps : List PendingEntry) :
    assignedCount wid (assignPending tid wid ps)
      ≤ assignedCount wid ps + ps.countP (fun p => p.taskId = tid) := by
  induction ps with
  | nil => simp [assignedCount, assignPending]
  | cons p ps ih =>
    have hstep : assignPending tid wid (p :: ps)
        = (if p.taskId = tid then { p with assigned := some wid } else p)
            :: assignPending tid wid ps := rfl
    rw [hstep]
    unfold assignedCount at ih ⊢
    rw [List.countP_cons, List.countP_cons, List.countP_cons]
    by_cases hp : p.assigned = some wid
    · by_cases h : p.taskId = tid
      · rw [if_pos h]
        simp only [hp, h]
        simp
        omega
      · rw [if_neg h]
        simp [hp, h]
        omega
    · by_cases h : p.taskId = tid
      · rw [if_pos h]
        simp [hp, h]
        omega
      · rw [if_neg h]
        simp [hp, h]
        omega

theorem removeFirstAssigned_sublist (wid : String) (ps : List PendingEntry) :
    (removeFirstAssigned wid ps).Sublist ps := by
  induction ps with
  | nil => simp [removeFirstAssigned]
  | cons p ps ih =>
    unfold removeFirstAssigned
    by_cases h : p.assigned = some wid
    · simp only [if_pos h]
      exact List.sublist_cons_self p ps
    · simp only [if_neg h]
      exact List.Sublist.cons₂ p ih

theorem assignedCount_removeFirst_self (wid : String) (ps : List PendingEntry) :
    assignedCount wid (removeFirstAssigned wid ps) = assignedCount wid ps - 1 := by
  induction ps with
  | nil => rfl
  | cons p ps ih =>
    have hstep : removeFirstAssigned wid (p :: ps)
        = if p.assigned = some wid then ps else p :: removeFirstAssigned wid ps := rfl
    rw [hstep]
    by_cases h : p.assigned = some wid
    · rw [if_pos h]
      unfold assignedCount
      rw [List.countP_cons]
      simp [h]
    · rw [if_neg h]
      unfold assignedCount at ih ⊢
      rw [List.countP_cons, List.countP_cons]
      simp only [h]
      simp [ih, h]

theorem assignedCount_sublist (wid : String) {ps qs : List PendingEntry}
    (h : ps.Sublist qs) : assignedCount wid ps ≤ assignedCount wid qs :=
  h.countP_le _

theorem assignedCount_removeAll_self (wid : String) (ps : List PendingEntry) :
    assignedCount wid (removeAllAssigned wid ps) = 0 := by
  unfold assignedCount removeAllAssigned
  rw [List.countP_eq_zero]
  intro p hp
  have := List.of_mem_filter hp
  simpa using this

theorem findIdle_mem (ws : List WorkerInfo) (w : WorkerInfo) (h : findIdle ws = some w) :
    w ∈ ws ∧ w.busy = false := by
  induction ws with
  | nil => simp [findIdle] at h
  | cons w₀ ws ih =>
    rw [show findIdle (w₀ :: ws) = if w₀.busy = false then some w₀ else findIdle ws from rfl] at h
    by_cases hb : w₀.busy = false
    · rw [if_pos hb] at h
      cases h
      exact ⟨List.mem_cons_self _ _, hb⟩
    · rw [if_neg hb] at h
      rcases ih h with ⟨hm, hb'⟩
      exact ⟨List.mem_cons_of_mem _ hm, hb'⟩

theorem mem_setBusy (wid : String) (b : Bool) (ws : List WorkerInfo) (w' : WorkerInfo)
    (h : w' ∈ setBusy wid b ws) :
    ∃ w ∈ ws, w' = if w.id = wid then { w with busy := b } else w := by
  unfold setBusy at h
  rcases List.mem_map.1 h with ⟨w, hw, he⟩
  exact ⟨w, hw, he.symm⟩

theorem mem_assignPending (tid wid : String) (ps : List PendingEntry) (p' : PendingEntry)
    (h : p' ∈ assignPending tid wid ps) :
    ∃ p ∈ ps, p' = if p.taskId = tid then { p with assigned := some wid } else p := by
  unfold assignPending at h
  rcases List.mem_map.1 h with ⟨p, hp, he⟩
  exact ⟨p, hp, he.symm⟩

theorem assignPending_map_taskId (tid wid : String) (ps : List PendingEntry) :
    (assignPending tid wid ps).map PendingEntry.taskId = ps.map PendingEntry.taskId := by
  unfold assignPending
  rw [List.map_map]
  apply List.map_congr_left
  intro p _
  by_cases h : p.taskId = tid <;> simp [h]

theorem countP_taskId_le_one (t : String) (ps : List PendingEntry)
    (h : (ps.map PendingEntry.taskId).Nodup) :
    ps.countP (fun p => p.taskId = t) ≤ 1 := by
  have h1 := List.nodup_iff_count_le_one.1 h t
  unfold List.count at h1
  rw [List.countP_map] at h1
  have h2 : List.countP (fun p => decide (p.taskId = t)) ps
      = List.countP ((fun x => x == t) ∘ PendingEntry.taskId) ps := by
    apply List.countP_congr
    intro p _
    simp [Function.comp]
  rw [h2]
  exact h1

theorem taskIds_append (l₁ l₂ : List (String × String)) :
    taskIds (l₁ ++ l₂) = taskIds l₁ ++ taskIds l₂ := by
  unfold taskIds
  exact List.map_append _ _ _

theorem initPM_inv (maxP : Nat) : PMInv (initPM maxP) := by
  constructor <;> simp [initPM, taskIds, assignedCount]

theorem processNextTask_nilQueue (s : PMState) (hq : s.taskQueue = []) :
    processNextTask s = s := by
  unfold processNextTask
  rw [hq]

theorem processNextTask_noIdle (s : PMState) (t : String) (rest : List String)
    (hq : s.taskQueue = t :: rest) (hw : findIdle s.workers = none) :
    processNextTask s = s := by
  unfold processNextTask
  rw [hq, hw]

theorem processNextTask_dispatch (s : PMState) (t : String) (rest : List String)
    (w : WorkerInfo) (hq : s.taskQueue = t :: rest) (hw : findIdle s.workers = some w) :
    processNextTask s =
      { s with taskQueue := rest,
               workers := setBusy w.id true s.workers,
               pending := assignPending t w.id s.pending,
               dispatchLog := s.dispatchLog ++ [(t, w.id)] } := by
  unfold processNextTask
  rw [hq, hw]

theorem PMInv_processNextTask (s : PMState) (hinv : PMInv s) : PMInv (processNextTask s) := by
  rcases hq : s.taskQueue with _ | ⟨t, rest⟩
  · rw [processNextTask_nilQueue s hq]
    exact hinv
  · rcases hw : findIdle s.workers with _ | w
    · rw [processNextTask_noIdle s t rest hq hw]
      exact hinv
    · rw [processNextTask_dispatch s t rest w hq hw]
      obtain ⟨hwmem, hwidle⟩ := findIdle_mem s.workers w hw
      have htq : t ∈ s.taskQueue := by
        rw [hq]
        exact List.mem_cons_self _ _
      have hzero : assignedCount w.id s.pending = 0 := hinv.idle_unassigned w hwmem hwidle
      have hnone : ∀ p ∈ s.pending, p.taskId = t → p.assigned = none := fun p hp hpt =>
        hinv.queued_unassigned p hp (hpt ▸ htq)
      have hqnd : (t :: rest).Nodup := hq ▸ hinv.queue_nodup
      constructor
      · -- idle_unassigned
        intro w' hw' hb'
        rcases mem_setBusy w.id true s.workers w' hw' with ⟨w₀, hw₀, he⟩
        by_cases hid : w₀.id = w.id
        · rw [if_pos hid] at he
          rw [he] at hb'
          simp at hb'
        · rw [if_neg hid] at he
          rw [he] at hb' ⊢
          rw [assignedCount_assign_other t w.id w₀.id s.pending hid hnone]
          exact hinv.idle_unassigned w₀ hw₀ hb'
      · -- at_most_one
        intro w' hw'
        rcases mem_setBusy w.id true s.workers w' hw' with ⟨w₀, hw₀, he⟩
        by_cases hid : w₀.id = w.id
        · rw [if_pos hid] at he
          rw [he]
          have hgoal : assignedCount w₀.id (assignPending t w.id s.pending) ≤ 1 := by
            rw [hid]
            calc assignedCount w.id (assignPending t w.id s.pending)
                ≤ assignedCount w.id s.pending + s.pending.countP (fun p => p.taskId = t) :=
                  assignedCount_assign_le t w.id s.pending
              _ ≤ 0 + 1 := by
                  rw [hzero]
                  exact Nat.add_le_add_left
                    (countP_taskId_le_one t s.pending hinv.pending_nodup) 0
              _ ≤ 1 := by omega
          exact hgoal
        · rw [if_neg hid] at he
          rw [he]
          rw [assignedCount_assign_other t w.id w₀.id s.pending hid hnone]
          exact hinv.at_most_one w₀ hw₀
      · -- log_nodup
        rw [taskIds_append]
        rw [List.nodup_append]
        refine ⟨hinv.log_nodup, by simp [taskIds], ?_⟩
        intro x hx
        simp only [taskIds, List.map_cons, List.map_nil, List.mem_singleton]
        intro hxt
        exact (hinv.queue_not_logged t htq) (hxt ▸ hx)
      · -- queue_not_logged
        intro t' ht'
        rw [taskIds_append]
        intro hmem
        rcases List.mem_append.1 hmem with hmem | hmem
        · exact hinv.queue_not_logged t' (by rw [hq]; exact List.mem_cons_of_mem _ ht') hmem
        · simp only [taskIds, List.map_cons, List.map_nil, List.mem_singleton] at hmem
          exact (List.nodup_cons.1 hqnd).1 (hmem ▸ ht')
      · -- queue_nodup
        exact (List.nodup_cons.1 hqnd).2
      · -- pending_nodup
        rw [assignPending_map_taskId]
        exact hinv.pending_nodup
      · -- queued_unassigned
        intro p' hp' hpt'
        rcases mem_assignPending t w.id s.pending p' hp' with ⟨p, hp, he⟩
        by_cases hid : p.taskId = t
        · rw [if_pos hid] at he
          rw [he] at hpt'
          have hpt2 : p.taskId ∈ rest := hpt'
          exact absurd (hid ▸ hpt2) (List.nodup_cons.1 hqnd).1
        · rw [if_neg hid] at he
          rw [he] at hpt' ⊢
          exact hinv.queued_unassigned p hp (by rw [hq]; exact List.mem_cons_of_mem _ hpt')

theorem PMInv_shrink_pending (s : PMState) (ps' : List PendingEntry) (hinv : PMInv s)
    (hsub : ps'.Sublist s.pending) :
    PMInv { s with pending := ps' } := by
  constructor
  · intro w hw hb
    have h0 := hinv.idle_unassigned w hw hb
    have hle := assignedCount_sublist w.id hsub
    have hgoal : assignedCount w.id ps' = 0 := by omega
    exact hgoal
  · intro w hw
    have h1 := hinv.at_most_one w hw
    have hle := assignedCount_sublist w.id hsub
    have hgoal : assignedCount w.id ps' ≤ 1 := by omega
    exact hgoal
  · exact hinv.log_nodup
  · exact hinv.queue_not_logged
  · exact hinv.queue_nodup
  · exact List.Nodup.sublist (hsub.map PendingEntry.taskId) hinv.pending_nodup
  · intro p hp hpt
    exact hinv.queued_unassigned p (hsub.subset hp) hpt

theorem PMInv_result_state (s : PMState) (wid : String) (hinv : PMInv s) :
    PMInv { s with workers := setBusy wid false s.workers,
                   pending := removeFirstAssigned wid s.pending } := by
  have hsub := removeFirstAssigned_sublist wid s.pending
  constructor
  · intro w' hw' hb'
    rcases mem_setBusy wid false s.workers w' hw' with ⟨w₀, hw₀, he⟩
    by_cases hid : w₀.id = wid
    · rw [if_pos hid] at he
      rw [he]
      have hgoal : assignedCount w₀.id (removeFirstAssigned wid s.pending) = 0 := by
        have h1 := hinv.at_most_one w₀ hw₀
        have h2 := assignedCount_removeFirst_self wid s.pending
        rw [hid]
        rw [hid] at h1
        omega
      exact hgoal
    · rw [if_neg hid] at he
      rw [he] at hb' ⊢
      have h0 := hinv.idle_unassigned w₀ hw₀ hb'
      have hle := assignedCount_sublist w₀.id hsub
      have hgoal : assignedCount w₀.id (removeFirstAssigned wid s.pending) = 0 := by omega
      exact hgoal
  · intro w' hw'
    rcases mem_setBusy wid false s.workers w' hw' with ⟨w₀, hw₀, he⟩
    have h1 := hinv.at_most_one w₀ hw₀
    have hle := assignedCount_sublist w₀.id hsub
    have hgoal : assignedCount w₀.id (removeFirstAssigned wid s.pending) ≤ 1 := by omega
    by_cases hid : w₀.id = wid
    · rw [if_pos hid] at he
      rw [he]
      exact hgoal
    · rw [if_neg hid] at he
      rw [he]
      exact hgoal
  · exact hinv.log_nodup
  · exact hinv.queue_not_logged
  · exact hinv.queue_nodup
  · exact List.Nodup.sublist (hsub.map PendingEntry.taskId) hinv.pending_nodup
  · intro p hp hpt
    exact hinv.queued_unassigned p (hsub.subset hp) hpt

theorem PMInv_procError_state (s : PMState) (wid : String) (hinv : PMInv s) :
    PMInv { s with workers := setBusy wid false s.workers,
                   pending := removeAllAssigned wid s.pending } := by
  have hsub : (removeAllAssigned wid s.pending).Sublist s.pending := List.filter_sublist _
  constructor
  · intro w' hw' hb'
    rcases mem_setBusy wid false s.workers w' hw' with ⟨w₀, hw₀, he⟩
    by_cases hid : w₀.id = wid
    · rw [if_pos hid] at he
      rw [he]
      have hgoal : assignedCount w₀.id (removeAllAssigned wid s.pending) = 0 := by
        rw [hid]
        exact assignedCount_removeAll_self wid s.pending
      exact hgoal
    · rw [if_neg hid] at he
      rw [he] at hb' ⊢
      have h0 := hinv.idle_unassigned w₀ hw₀ hb'
      have hle := assignedCount_sublist w₀.id hsub
      have hgoal : assignedCount w₀.id (removeAllAssigned wid s.pending) = 0 := by omega
      exact hgoal
  · intro w' hw'
    rcases mem_setBusy wid false s.workers w' hw' with ⟨w₀, hw₀, he⟩
    have h1 := hinv.at_most_one w₀ hw₀
    have hle := assignedCount_sublist w₀.id hsub
    have hgoal : assignedCount w₀.id (removeAllAssigned wid s.pending) ≤ 1 := by omega
    by_cases hid : w₀.id = wid
    · rw [if_pos hid] at he
      rw [he]
      exact hgoal
    · rw [if_neg hid] at he
      rw [he]
      exact hgoal
  · exact hinv.log_nodup
  · exact hinv.queue_not_logged
  · exact hinv.queue_nodup
  · exact List.Nodup.sublist (hsub.map PendingEntry.taskId) hinv.pending_nodup
  · intro p hp hpt
    exact hinv.queued_unassigned p (hsub.subset hp) hpt

theorem PMInv_ready_state (s : PMState) (wid : String) (hinv : PMInv s)
    (hpend : s.pending.any (fun p => p.assigned = some wid) = false) :
    PMInv { s with workers := s.workers ++ [{ id := wid, busy := false }] } := by
  have h0 : assignedCount wid s.pending = 0 := by
    unfold assignedCount
    rw [List.countP_eq_zero]
    intro p hp hc
    have hany : s.pending.any (fun p => p.assigned = some wid) = true :=
      List.any_eq_true.2 ⟨p, hp, hc⟩
    rw [hany] at hpend
    cases hpend
  constructor
  · intro w hw hb
    rcases List.mem_append.1 hw with hw | hw
    · exact hinv.idle_unassigned w hw hb
    · rw [List.mem_singleton.1 hw]
      exact h0
  · intro w hw
    rcases List.mem_append.1 hw with hw | hw
    · exact hinv.at_most_one w hw
    · rw [List.mem_singleton.1 hw]
      have hgoal : assignedCount wid s.pending ≤ 1 := by omega
      exact hgoal
  · exact hinv.log_nodup
  · exact hinv.queue_not_logged
  · exact hinv.queue_nodup
  · exact hinv.pending_nodup
  · exact hinv.queued_unassigned

theorem PMInv_submit_state (s : PMState) (tid : String) (hinv : PMInv s)
    (hq : s.taskQueue.any (fun t => t = tid) = false)
    (hp : s.pending.any (fun p => p.taskId = tid) = false)
    (hl : (taskIds s.dispatchLog).any (fun t => t = tid) = false) :
    PMInv { s with pending := s.pending ++ [{ taskId := tid, assigned := none }],
                   taskQueue := s.taskQueue ++ [tid] } := by
  have htq : tid ∉ s.taskQueue := by
    intro hmem
    have hany : s.taskQueue.any (fun t => t = tid) = true :=
      List.any_eq_true.2 ⟨tid, hmem, by simp⟩
    rw [hany] at hq
    cases hq
  have htp : ∀ p ∈ s.pending, ¬ p.taskId = tid := by
    intro p hmem hc
    have hany : s.pending.any (fun p => p.taskId = tid) = true :=
      List.any_eq_true.2 ⟨p, hmem, by simp [hc]⟩
    rw [hany] at hp
    cases hp
  have htl : tid ∉ taskIds s.dispatchLog := by
    intro hmem
    have hany : (taskIds s.dispatchLog).any (fun t => t = tid) = true :=
      List.any_eq_true.2 ⟨tid, hmem, by simp⟩
    rw [hany] at hl
    cases hl
  have hcnt : ∀ widd, assignedCount widd
      (s.pending ++ [{ taskId := tid, assigned := none }]) = assignedCount widd s.pending := by
    intro widd
    unfold assignedCount
    rw [List.countP_append]
    simp
  constructor
  · intro w hw hb
    rw [hcnt]
    exact hinv.idle_unassigned w hw hb
  · intro w hw
    rw [hcnt]
    exact hinv.at_most_one w hw
  · exact hinv.log_nodup
  · intro t ht
    rcases List.mem_append.1 ht with ht | ht
    · exact hinv.queue_not_logged t ht
    · rw [List.mem_singleton.1 ht]
      exact htl
  · rw [List.nodup_append]
    exact ⟨hinv.queue_nodup, List.nodup_singleton tid,
      fun x hx hx1 => htq ((List.mem_singleton.1 hx1) ▸ hx)⟩
  · rw [List.map_append, List.nodup_append]
    refine ⟨hinv.pending_nodup, by simp, ?_⟩
    intro x hx hx1
    simp only [List.map_cons, List.map_nil, List.mem_singleton] at hx1
    rcases List.mem_map.1 hx with ⟨p, hpmem, hpx⟩
    exact htp p hpmem (by rw [hpx, hx1])
  · intro p hpm hpt
    rcases List.mem_append.1 hpm with hpm | hpm
    · rcases List.mem_append.1 hpt with hpt | hpt
      · exact hinv.queued_unassigned p hpm hpt
      · exact absurd (List.mem_singleton.1 hpt) (htp p hpm)
    · rw [List.mem_singleton.1 hpm]

theorem step_inv (s s' : PMState) (e : PMEvent) (hinv : PMInv s)
    (hstep : step s e = some s') : PMInv s' := by
  cases e with
  | ready wid =>
    simp only [step] at hstep
    by_cases h1 : hasWorker wid s.workers = true
    · rw [if_pos h1] at hstep
      cases hstep
    · rw [if_neg h1] at hstep
      by_cases h2 : s.pending.any (fun p => p.assigned = some wid) = true
      · rw [if_pos h2] at hstep
        cases hstep
      · rw [if_neg h2] at hstep
        have h2' : s.pending.any (fun p => p.assigned = some wid) = false := by
          simpa using h2
        have he := Option.some.inj hstep
        rw [← he]
        exact PMInv_processNextTask _ (PMInv_ready_state s wid hinv h2')
  | submit tid =>
    simp only [step] at hstep
    by_cases h1 : knownTask tid s = true
    · rw [if_pos h1] at hstep
      cases hstep
    · rw [if_neg h1] at hstep
      have h1' : knownTask tid s = false := by simpa using h1
      unfold knownTask at h1'
      rw [Bool.or_eq_false_iff, Bool.or_eq_false_iff] at h1'
      have he := Option.some.inj hstep
      rw [← he]
      exact PMInv_processNextTask _
        (PMInv_submit_state s tid hinv h1'.1.1 h1'.1.2 h1'.2)
  | result wid =>
    simp only [step] at hstep
    by_cases h1 : hasWorker wid s.workers = true
    · rw [if_pos h1] at hstep
      have he := Option.some.inj hstep
      rw [← he]
      exact PMInv_processNextTask _ (PMInv_result_state s wid hinv)
    · rw [if_neg h1] at hstep
      cases hstep
  | procError wid =>
    simp only [step] at hstep
    by_cases h1 : hasWorker wid s.workers = true
    · rw [if_pos h1] at hstep
      have he := Option.some.inj hstep
      rw [← he]
      exact PMInv_procError_state s wid hinv
    · rw [if_neg h1] at hstep
      cases hstep
  | timeout tid =>
    simp only [step] at hstep
    have he := Option.some.inj hstep
    rw [← he]
    exact PMInv_shrink_pending s _ hinv (List.filter_sublist _)
  | exit wid =>
    simp only [step] at hstep
    have he := Option.some.inj hstep
    rw [← he]
    constructor
    · intro w hw hb
      exact hinv.idle_unassigned w (List.mem_of_mem_filter hw) hb
    · intro w hw
      exact hinv.at_most_one w (List.mem_of_mem_filter hw)
    · exact hinv.log_nodup
    · exact hinv.queue_not_logged
    · exact hinv.queue_nodup
    · exact hinv.pending_nodup
    · exact hinv.queued_unassigned

theorem runEvents_inv (evts : List PMEvent) : ∀ (s s' : PMState), PMInv s →
    runEvents s evts = some s' → PMInv s' := by
  induction evts with
  | nil =>
    intro s s' hinv h
    unfold runEvents at h
    rw [← Option.some.inj h]
    exact hinv
  | cons e es ih =>
    intro s s' hinv h
    unfold runEvents at h
    rcases hstep : step s e with _ | s₁
    · rw [hstep] at h
      cases h
    · rw [hstep] at h
      exact ih s₁ s' (step_inv s s₁ e hinv hstep) h

theorem processNextTask_keeps_task (s : PMState) (t : String)
    (h : t ∈ s.taskQueue ∨ t ∈ taskIds s.dispatchLog) :
    t ∈ (processNextTask s).taskQueue ∨ t ∈ taskIds (processNextTask s).dispatchLog := by
  rcases hq : s.taskQueue with _ | ⟨t₀, rest⟩
  · rw [processNextTask_nilQueue s hq]
    exact h
  · rcases hw : findIdle s.workers with _ | w
    · rw [processNextTask_noIdle s t₀ rest hq hw]
      exact h
    · rw [processNextTask_dispatch s t₀ rest w hq hw]
      rcases h with h | h
      · rw [hq] at h
        rcases List.mem_cons.1 h with h | h
        · right
          rw [taskIds_append]
          apply List.mem_append_right
          simp [taskIds, h]
        · left
          exact h
      · right
        rw [taskIds_append]
        exact List.mem_append_left _ h

theorem step_keeps_task (s s' : PMState) (e : PMEvent) (t : String)
    (hstep : step s e = some s') (h : t ∈ s.taskQueue ∨ t ∈ taskIds s.dispatchLog) :
    t ∈ s'.taskQueue ∨ t ∈ taskIds s'.dispatchLog := by
  cases e with
  | ready wid =>
    simp only [step] at hstep
    by_cases h1 : hasWorker wid s.workers = true
    · rw [if_pos h1] at hstep
      cases hstep
    · rw [if_neg h1] at hstep
      by_cases h2 : (s.pending.any fun p => p.assigned = some wid) = true
      · rw [if_pos h2] at hstep
        cases hstep
      · rw [if_neg h2] at hstep
        rw [← Option.some.inj hstep]
        exact processNextTask_keeps_task _ t h
  | submit tid =>
    simp only [step] at hstep
    by_cases h1 : knownTask tid s = true
    · rw [if_pos h1] at hstep
      cases hstep
    · rw [if_neg h1] at hstep
      rw [← Option.some.inj hstep]
      apply processNextTask_keeps_task
      rcases h with h | h
      · exact Or.inl (List.mem_append_left _ h)
      · exact Or.inr h
  | result wid =>
    simp only [step] at hstep
    by_cases h1 : hasWorker wid s.workers = true
    · rw [if_pos h1] at hstep
      rw [← Option.some.inj hstep]
      exact processNextTask_keeps_task _ t h
    · rw [if_neg h1] at hstep
      cases hstep
  | procError wid =>
    simp only [step] at hstep
    by_cases h1 : hasWorker wid s.workers = true
    · rw [if_pos h1] at hstep
      rw [← Option.some.inj hstep]
      exact h
    · rw [if_neg h1] at hstep
      cases hstep
  | timeout tid =>
    simp only [step] at hstep
    rw [← Option.some.inj hstep]
    exact h
  | exit wid =>
    simp only [step] at hstep
    rw [← Option.some.inj hstep]
    exact h

theorem runEvents_keeps_task (evts : List PMEvent) : ∀ (s s' : PMState) (t : String),
    runEvents s evts = some s' → (t ∈ s.taskQueue ∨ t ∈ taskIds s.dispatchLog) →
    t ∈ s'.taskQueue ∨ t ∈ taskIds s'.dispatchLog := by
  induction evts with
  | nil =>
    intro s s' t h ht
    unfold runEvents at h
    rw [← Option.some.inj h]
    exact ht
  | cons e es ih =>
    intro s s' t h ht
    unfold runEvents at h
    rcases hstep : step s e with _ | s₁
    · rw [hstep] at h
      cases h
    · rw [hstep] at h
      exact ih s₁ s' t h (step_keeps_task s s₁ e t hstep ht)

theorem findIdle_setBusy_false (wid : String) (ws : List WorkerInfo)
    (hw : hasWorker wid ws = true) (hall : ∀ w ∈ ws, w.busy = true) :
    ∃ w', findIdle (setBusy wid false ws) = some w' ∧ w'.id = wid := by
  induction ws with
  | nil => simp [hasWorker] at hw
  | cons w ws ih =>
    by_cases h : w.id = wid
    · refine ⟨{ w with busy := false }, ?_, h⟩
      show findIdle ((if w.id = wid then { w with busy := false } else w) :: setBusy wid false ws)
        = some { w with busy := false }
      rw [if_pos h]
      show (if ({ w with busy := false } : WorkerInfo).busy = false
        then some ({ w with busy := false } : WorkerInfo)
        else findIdle (setBusy wid false ws)) = some { w with busy := false }
      rw [if_pos rfl]
    · have hw' : hasWorker wid ws = true := by
        unfold hasWorker at hw
        rw [List.any_cons] at hw
        rcases Bool.or_eq_true_iff.1 hw with hc | hc
        · exact absurd (of_decide_eq_true hc) h
        · exact hc
      have hall' : ∀ w' ∈ ws, w'.busy = true := fun w' hm => hall w' (List.mem_cons_of_mem _ hm)
      rcases ih hw' hall' with ⟨w', hfi, hid⟩
      refine ⟨w', ?_, hid⟩
      show findIdle ((if w.id = wid then { w with busy := false } else w) :: setBusy wid false ws)
        = some w'
      rw [if_neg h]
      show (if w.busy = false then some w else findIdle (setBusy wid false ws)) = some w'
      have hb := hall w (List.mem_cons_self _ _)
      rw [if_neg (by rw [hb]; simp), hfi]

/-- C3: at-most-once worker assignment.  In every reachable supervisor state,
each pooled worker has at most one pending task marked against it, and an
idle worker (busy flag `false`) has none — a task is dispatched only to an
idle worker, the flag is set at dispatch and cleared when that worker's
result or error is handled. -/
theorem at_most_one_task_per_worker (maxP : Nat) (evts : List PMEvent) (s : PMState)
    (h : runEvents (initPM maxP) evts = some s) :
    ∀ w ∈ s.workers, assignedCount w.id s.pending ≤ 1 ∧
      (w.busy = false → assignedCount w.id s.pending = 0) := by
  have hinv := runEvents_inv evts (initPM maxP) s (initPM_inv maxP) h
  exact fun w hw => ⟨hinv.at_most_one w hw, hinv.idle_unassigned w hw⟩

/-- Witness for `at_most_one_task_per_worker`: spawn one worker, submit one
task; the worker ends busy with exactly that task assigned. -/
theorem at_most_one_task_per_worker_witness :
    assignedCount "p1" [{ taskId := "t1", assigned := some "p1" }] ≤ 1 ∧
    ((true : Bool) = false →
      assignedCount "p1" [{ taskId := "t1", assigned := some "p1" }] = 0) :=
  at_most_one_task_per_worker 2 [PMEvent.ready "p1", PMEvent.submit "t1"]
    { maxProcesses := 2, workers := [{ id := "p1", busy := true }], taskQueue := [],
      pending := [{ taskId := "t1", assigned := some "p1" }],
      dispatchLog := [("t1", "p1")] }
    (by decide)
    { id := "p1", busy := true } (List.mem_singleton.2 rfl)

/-- C5: a task submitted while every worker is busy (pool at capacity) stays
in the internal FIFO queue: it has not been dispatched yet; along any further
events it is either still queued or has been dispatched, and it never appears
twice in the dispatch log; and as soon as a busy worker reports its result,
the head task is dispatched to that worker. -/
theorem queued_task_waits_then_dispatches (maxP : Nat) (evts : List PMEvent)
    (s : PMState) (t : String)
    (h : runEvents (initPM maxP) evts = some s)
    (ht : t ∈ s.taskQueue)
    (_hcap : s.workers.length = s.maxProcesses)
    (hall : ∀ w ∈ s.workers, w.busy = true) :
    t ∉ taskIds s.dispatchLog ∧
    (∀ evts' s'', runEvents s evts' = some s'' →
      (t ∈ s''.taskQueue ∨ t ∈ taskIds s''.dispatchLog) ∧
      List.count t (taskIds s''.dispatchLog) ≤ 1) ∧
    (∀ wid rest, s.taskQueue = t :: rest → hasWorker wid s.workers = true →
      ∃ s', step s (PMEvent.result wid) = some s' ∧
        (t, wid) ∈ s'.dispatchLog ∧ s'.taskQueue = rest) := by
  have hinv := runEvents_inv evts (initPM maxP) s (initPM_inv maxP) h
  refine ⟨hinv.queue_not_logged t ht, ?_, ?_⟩
  · intro evts' s'' h''
    have hinv'' := runEvents_inv evts' s s'' hinv h''
    refine ⟨runEvents_keeps_task evts' s s'' t h'' (Or.inl ht), ?_⟩
    exact List.nodup_iff_count_le_one.1 hinv''.log_nodup t
  · intro wid rest hq hw
    have hstate : step s (PMEvent.result wid) = some (processNextTask
        { s with workers := setBusy wid false s.workers,
                 pending := removeFirstAssigned wid s.pending }) := by
      simp only [step]
      rw [if_pos hw]
    rcases findIdle_setBusy_false wid s.workers hw hall with ⟨w', hfi, hid⟩
    have hdisp := processNextTask_dispatch
      { s with workers := setBusy wid false s.workers,
               pending := removeFirstAssigned wid s.pending } t rest w' hq hfi
    refine ⟨_, hstate, ?_, ?_⟩
    · rw [hdisp]
      show (t, wid) ∈ s.dispatchLog ++ [(t, w'.id)]
      apply List.mem_append_right
      rw [hid]
      exact List.mem_singleton.2 rfl
    · rw [hdisp]

/-- Witness for `queued_task_waits_then_dispatches`: with `maxProcesses = 1`
and the sole worker busy on "t1", task "t2" waits queued; when the worker's
result arrives, "t2" is dispatched to it. -/
theorem queued_task_waits_then_dispatches_witness :
    ∃ s', step
        { maxProcesses := 1, workers := [{ id := "p1", busy := true }],
          taskQueue := ["t2"],
          pending := [{ taskId := "t1", assigned := some "p1" },
                      { taskId := "t2", assigned := none }],
          dispatchLog := [("t1", "p1")] } (PMEvent.result "p1") = some s' ∧
      ("t2", "p1") ∈ s'.dispatchLog ∧ s'.taskQueue = [] :=
  (queued_task_waits_then_dispatches 1
      [PMEvent.ready "p1", PMEvent.submit "t1", PMEvent.submit "t2"]
      { maxProcesses := 1, workers := [{ id := "p1", busy := true }],
        taskQueue := ["t2"],
        pending := [{ taskId := "t1", assigned := some "p1" },
                    { taskId := "t2", assigned := none }],
        dispatchLog := [("t1", "p1")] }
      "t2" (by decide) (by decide) rfl (by decide)).2.2 "p1" [] rfl (by decide)

end SolanaBot
